import Mathlib

/-!
Verification of the netmon measurement orchestrator (mantzas/netmon).

This file gives a shallow embedding, in Lean 4, of the parts of the Go
sources that the specification's claims are about:

* `src/speed.go` — `Speed` and `Ping`: the on-demand speed / ping rounds,
  one result per supplied server id, failures recorded inside results.
* `src/cmd/server/main.go` — `getServerIDs` and the ping/speed HTTP
  handlers: validation of the `ids` path value.
* `src/unnamed/part_005` (package netmon scheduler) — `NewScheduler`,
  `Scheduler.Schedule`, `Scheduler.ping`: the periodic scheduler built on
  two `time.Ticker`s that are stopped before each round and reset after it.
* `src/unnamed/part_012` (package ping) — `Ping`: the latency probe with a
  fixed 20 second timeout and no cancellation parameter.

External effects (the speedtest network library, the pinger, the clock)
are modelled by explicit environments: a record of functions giving, for
each target, the outcome that the external collaborator would produce.
Time is modelled in whole seconds as `Nat`.
-/

/-! ## `src/speed.go` — `Speed` (lines 88-145)

`Speed(ctx, serverIDs)` iterates over the supplied ids.  Each iteration
builds one `SpeedResult`, filling it step by step (fetch server, ping
test, download test, upload test); the first failing step records the
error in the result's `Err` field, appends the result and `continue`s to
the next id.  The environment `SpeedEnv` gives the outcome of each of the
four external calls for a given server id.  Download/upload rates are
carried as `Nat` (their values are opaque to the orchestration logic). -/

structure SpeedResult where
  serverID : String
  server : String
  latency : Nat
  dl : Nat
  ul : Nat
  err : Option String
deriving DecidableEq

structure SpeedEnv where
  fetchServer : String → Except String String
  pingTest : String → Except String Nat
  downloadTest : String → Except String Nat
  uploadTest : String → Except String Nat

/-- One iteration of the loop body of `Speed` (src/speed.go:93-141):
the chain of fetch / ping / download / upload with early exit
(`continue`) on the first failing step. -/
def speedOne (env : SpeedEnv) (serverID : String) : SpeedResult :=
  match env.fetchServer serverID with
  | Except.error e => ⟨serverID, "", 0, 0, 0, some ("failed to fetch server: " ++ e)⟩
  | Except.ok sponsor =>
    match env.pingTest serverID with
    | Except.error e => ⟨serverID, sponsor, 0, 0, 0, some ("failed ping test on " ++ e)⟩
    | Except.ok lat =>
      match env.downloadTest serverID with
      | Except.error e => ⟨serverID, sponsor, lat, 0, 0, some ("failed download test: " ++ e)⟩
      | Except.ok dl =>
        match env.uploadTest serverID with
        | Except.error e => ⟨serverID, sponsor, lat, dl, 0, some ("failed upload test: " ++ e)⟩
        | Except.ok ul => ⟨serverID, sponsor, lat, dl, ul, none⟩

/-- `Speed` (src/speed.go:88-145): the loop over `serverIDs`, appending
exactly one result per iteration.  It has no error return value. -/
def Speed (env : SpeedEnv) : List String → List SpeedResult
  | [] => []
  | serverID :: rest => speedOne env serverID :: Speed env rest

/-! ## `src/speed.go` — `Ping` (lines 48-75)

`Ping(ctx)` fetches the speedtest server list; if the fetch fails the
error is returned and nothing else runs.  Otherwise each fetched server
gets one `PingResult`; a per-server ping failure is recorded in the
result's `Err` field and the loop continues.  The environment carries the
fetch outcome (a list of (id, sponsor) pairs) and the per-server ping
outcome. -/

structure PingResult where
  serverID : String
  server : String
  latency : Nat
  err : Option String
deriving DecidableEq

structure PingEnv where
  fetchServerList : Except String (List (String × String))
  pingTest : String → Except String Nat

/-- The per-server loop of `Ping` (src/speed.go:58-72). -/
def pingLoop (env : PingEnv) : List (String × String) → List PingResult
  | [] => []
  | (id, sponsor) :: rest =>
    (match env.pingTest id with
     | Except.error e =>
       ⟨id, sponsor, 0, some ("ping: failed ping test on " ++ sponsor ++ ": " ++ e)⟩
     | Except.ok lat => ⟨id, sponsor, lat, none⟩) :: pingLoop env rest

/-- `Ping` (src/speed.go:48-75): server-list fetch, then the per-server
loop; only the fetch failure is surfaced as an error. -/
def Ping (env : PingEnv) : Except String (List PingResult) :=
  match env.fetchServerList with
  | Except.error e => Except.error e
  | Except.ok servers => Except.ok (pingLoop env servers)

/-! ## `src/cmd/server/main.go` — `getServerIDs` and the handlers

`getServerIDs` (lines 128-135) rejects only the empty `ids` path value;
any other value is passed to `strings.Split(idsString, ",")` unchecked.
`splitComma` embeds Go's `strings.Split(s, ",")` for a non-empty one-rune
separator: it cuts `s` at every comma, keeping empty segments. -/

def splitCommaAux : List Char → List Char → List String
  | [], acc => [String.mk acc.reverse]
  | c :: rest, acc =>
    if c = ',' then String.mk acc.reverse :: splitCommaAux rest []
    else splitCommaAux rest (c :: acc)

def splitComma (s : String) : List String :=
  splitCommaAux s.toList []

def getServerIDs (idsString : String) : Except String (List String) :=
  if idsString = "" then Except.error "ping failed. missing server ids value"
  else Except.ok (splitComma idsString)

/-- Observable outcome of one handler invocation: the HTTP status written
and the target list the measurement function was invoked with (`none`
when the handler returned before invoking it). -/
structure HandlerOut where
  status : Nat
  calledWith : Option (List String)
deriving DecidableEq

/-- `pingHandlerFunc` (src/cmd/server/main.go:137-171): validation error
gives 400 before the probe runs; a probe error gives 500; otherwise 200
with the marshalled results (marshalling of a well-formed response record
is modelled as always succeeding). -/
def pingHandlerFunc (probe : List String → Except String (List PingResult))
    (idsPath : String) : HandlerOut :=
  match getServerIDs idsPath with
  | Except.error _ => ⟨400, none⟩
  | Except.ok serverIDs =>
    match probe serverIDs with
    | Except.error _ => ⟨500, some serverIDs⟩
    | Except.ok _ => ⟨200, some serverIDs⟩

/-- `speedHandlerFunc` (src/cmd/server/main.go:177-206): validation error
gives 400 before `Speed` runs; `Speed` has no error return, so otherwise
the handler always answers 200, invoking `Speed` with the split ids
(recorded in `calledWith`). -/
def speedHandlerFunc (idsPath : String) : HandlerOut :=
  match getServerIDs idsPath with
  | Except.error _ => ⟨400, none⟩
  | Except.ok serverIDs => ⟨200, some serverIDs⟩

/-! ## `src/unnamed/part_005` — `NewScheduler` (lines 39-47)

The constructor checks, in order, that `pingFunc` and `speedTestFunc` are
non-nil; nothing else is validated.  Go nil-able function values are
modelled as `Option`.  The probe function types follow `PingFunc` /
`SpeedTestFunc` (lines 11-16): the ping function receives only the
address; the speed test function receives the context (modelled as the
cancellation time) and the server ids. -/

def PingFuncT : Type := String → Option String

def SpeedTestFuncT : Type := Option Nat → List Int → Option String

structure PingConfig where
  Addresses : List String
  Interval : Nat

structure SpeedConfig where
  ServerIDs : List Int
  Interval : Nat

structure Scheduler where
  pingCfg : PingConfig
  speedCfg : SpeedConfig
  pingFunc : PingFuncT
  speedTestFunc : SpeedTestFuncT

def NewScheduler (pingCfg : PingConfig) (speedCfg : SpeedConfig)
    (pingFunc : Option PingFuncT) (speedTestFunc : Option SpeedTestFuncT) :
    Except String Scheduler :=
  match pingFunc with
  | none => Except.error "ping func is nil"
  | some pf =>
    match speedTestFunc with
    | none => Except.error "speed test func is nil"
    | some sf => Except.ok ⟨pingCfg, speedCfg, pf, sf⟩

def isOkE {ε α : Type} : Except ε α → Bool
  | Except.ok _ => true
  | Except.error _ => false

/-! ## `src/unnamed/part_005` — `Scheduler.ping` (lines 74-81)

The round loops over the configured addresses in order; each address gets
one `pingFunc` call; an error is logged and the loop continues.  The
observable round is the list of (address, outcome) pairs. -/

def schedPing (pingFunc : String → Option String) : List String → List (String × Option String)
  | [] => []
  | a :: rest => (a, pingFunc a) :: schedPing pingFunc rest

/-! ## `src/unnamed/part_012` — `ping.Ping` (lines 28-46)

The latency probe: `NewPinger(address)` may fail; otherwise the pinger
runs with `Count = 3` and `Timeout = 20 * time.Second`, so the run lasts
`min (natural duration) 20` seconds.  The function's Go signature is
`func Ping(address string) error`: there is no context parameter, so no
cancellation signal reaches the probe.  The model returns the elapsed
time in seconds together with the error, if any. -/

structure PingerEnv where
  newPingerErr : String → Option String
  runDur : String → Nat
  runErr : String → Option String

def pingProbe (env : PingerEnv) (address : String) : Nat × Option String :=
  match env.newPingerErr address with
  | some e => (0, some ("ping: failed to create pinger: " ++ e))
  | none =>
    match env.runErr address with
    | some e => (min (env.runDur address) 20, some ("ping: failed to run pinger: " ++ e))
    | none => (min (env.runDur address) 20, none)

/-- Elapsed time of one `Scheduler.ping` round inside `Schedule`: the
scheduler's context (cancellation time `cancelAt`) is in scope there, but
`PingFunc` takes only the address, so the per-address calls run one after
the other with nothing consuming the cancellation signal. -/
def schedPingElapsed (pingFunc : String → Nat × Option String) :
    List String → Option Nat → Nat
  | [], _ => 0
  | a :: rest, cancelAt => (pingFunc a).fst + schedPingElapsed pingFunc rest cancelAt

/-! ## `src/unnamed/part_005` — `Scheduler.Schedule` (lines 50-72)

Timed semantics of the scheduling loop.  The Go code is a single
goroutine: it first runs one ping round and one speed round, then creates
the two tickers and enters a `select` loop.  On a ping (resp. speed) tick
it stops that ticker, runs the round inline, and resets the ticker, so
the next tick of that kind fires one interval after the round completes.
On `ctx.Done()` the loop returns.

Modelling choices, matching Go's `time.Ticker` and `select`:
* a ticker created or reset at time `t` with interval `i` next fires at
  `t + i`; a tick that fires while the loop is busy is buffered and is
  received when the loop next reaches the `select` (effective receive
  time `max fireTime now`); further fires while the buffer is full are
  dropped, which is invisible here because the code stops the ticker as
  soon as a tick is received;
* when several channels are ready the model resolves the `select`
  deterministically, preferring `ctx.Done()`, then the ping ticker, then
  the speed ticker;
* the bodies of the rounds are abstracted by their durations: `pingDur n`
  (resp. `speedDur n`) is the duration in seconds of the n-th ping
  (resp. speed) round, counted from 0 for the initial round.

`scheduleLoop` consumes fuel (a bound on the number of loop iterations)
and returns the chronological list of rounds the loop ran, each recorded
as kind, `due` (the time the tick that triggered it fired; for the two
initial rounds, the start time), `start` and `stop`. -/

inductive Kind where
  | ping
  | speed
deriving DecidableEq

structure RoundRec where
  kind : Kind
  due : Nat
  start : Nat
  stop : Nat
deriving DecidableEq

def RoundRec.isPing (r : RoundRec) : Bool :=
  match r.kind with
  | Kind.ping => true
  | Kind.speed => false

def RoundRec.isSpeed (r : RoundRec) : Bool :=
  match r.kind with
  | Kind.ping => false
  | Kind.speed => true

structure SchedEnv where
  pingInterval : Nat
  speedInterval : Nat
  pingDur : Nat → Nat
  speedDur : Nat → Nat

structure LoopState where
  now : Nat
  pingNext : Nat
  speedNext : Nat
  pingCount : Nat
  speedCount : Nat

def scheduleLoop (env : SchedEnv) (cancelAt : Nat) : Nat → LoopState → List RoundRec
  | 0, _ => []
  | fuel + 1, s =>
    let tDone := max cancelAt s.now
    let tPing := max s.pingNext s.now
    let tSpeed := max s.speedNext s.now
    if tDone ≤ tPing ∧ tDone ≤ tSpeed then []
    else if tPing ≤ tSpeed then
      let fin := tPing + env.pingDur s.pingCount
      ⟨Kind.ping, s.pingNext, tPing, fin⟩ ::
        scheduleLoop env cancelAt fuel
          ⟨fin, fin + env.pingInterval, s.speedNext, s.pingCount + 1, s.speedCount⟩
    else
      let fin := tSpeed + env.speedDur s.speedCount
      ⟨Kind.speed, s.speedNext, tSpeed, fin⟩ ::
        scheduleLoop env cancelAt fuel
          ⟨fin, s.pingNext, fin + env.speedInterval, s.pingCount, s.speedCount + 1⟩

/-- State of the loop right after the two initial rounds: the tickers
are created at the end of the initial speed round, so each first fires
one interval later. -/
def initState (env : SchedEnv) : LoopState :=
  ⟨env.pingDur 0 + env.speedDur 0,
   env.pingDur 0 + env.speedDur 0 + env.pingInterval,
   env.pingDur 0 + env.speedDur 0 + env.speedInterval, 1, 1⟩

/-- `Scheduler.Schedule` (src/unnamed/part_005:50-72): the initial ping
round at time 0 and the initial speed round right after it, then the two
tickers are created and the `select` loop runs. -/
def Schedule (env : SchedEnv) (cancelAt : Nat) (fuel : Nat) : List RoundRec :=
  ⟨Kind.ping, 0, 0, env.pingDur 0⟩ ::
    ⟨Kind.speed, env.pingDur 0, env.pingDur 0, env.pingDur 0 + env.speedDur 0⟩ ::
      scheduleLoop env cancelAt fuel (initState env)

/-! Trace predicates.  All are executable `Bool`-valued checks over the
round list, so concrete runs can be checked by evaluation. -/

/-- Every round starts no earlier than the anchor `t`, starts no later
than it stops, and each later round starts no earlier than its
predecessor stops: the rounds are sequential. -/
def chainedFrom (t : Nat) : List RoundRec → Bool
  | [] => true
  | r :: rest => (decide (t ≤ r.start) && decide (r.start ≤ r.stop)) && chainedFrom r.stop rest

def chainedAll : List RoundRec → Bool
  | [] => true
  | r :: rest => decide (r.start ≤ r.stop) && chainedFrom r.stop rest

/-- Each round of the list is due exactly at the anchor (the tick fired
one interval after the previous round of this kind completed, or one
interval after the ticker was created) and starts no earlier than it is
due; the following round of the kind is due one interval after this one
stops. -/
def dueFrom (ival : Nat) (b : Nat) : List RoundRec → Bool
  | [] => true
  | r :: rest => (decide (r.due = b) && decide (r.due ≤ r.start)) && dueFrom ival (r.stop + ival) rest

/-- Each round of the list starts no earlier than the anchor, and each
later round starts at least one interval after its predecessor stops. -/
def gappedFrom (ival : Nat) (b : Nat) : List RoundRec → Bool
  | [] => true
  | r :: rest => decide (b ≤ r.start) && gappedFrom ival (r.stop + ival) rest

def gappedAll (ival : Nat) : List RoundRec → Bool
  | [] => true
  | r :: rest => gappedFrom ival (r.stop + ival) rest

/-- Each round starts exactly at `max due t` where `t` is the stop time
of the previous round (of either kind): a due round starts at its due
time unless a round of the other kind is still running, in which case it
starts exactly when that round completes. -/
def linkedFrom (t : Nat) : List RoundRec → Bool
  | [] => true
  | r :: rest => decide (r.start = max r.due t) && linkedFrom r.stop rest

def linkedAll : List RoundRec → Bool
  | [] => true
  | r :: rest => linkedFrom r.stop rest

/-! Agreement of two `Speed` environments at one server id: the four
external calls behave the same for that id. -/

def agreeAt (env env' : SpeedEnv) (id : String) : Prop :=
  env.fetchServer id = env'.fetchServer id ∧ env.pingTest id = env'.pingTest id ∧
    env.downloadTest id = env'.downloadTest id ∧ env.uploadTest id = env'.uploadTest id

/-! Concrete environments used by witnesses and counterexamples. -/

/-- A `Speed` environment in which fetching server "A" fails and
everything else succeeds. -/
def envFailA : SpeedEnv :=
  ⟨fun id => if id = "A" then Except.error "boom" else Except.ok "SponsorOne",
   fun _ => Except.ok 7, fun _ => Except.ok 100, fun _ => Except.ok 50⟩

/-- A `Speed` environment in which every call succeeds. -/
def envAllOk : SpeedEnv :=
  ⟨fun _ => Except.ok "SponsorOne", fun _ => Except.ok 7,
   fun _ => Except.ok 100, fun _ => Except.ok 50⟩

/-- A scheduler probe in which pinging address "x" fails and everything
else succeeds. -/
def pingFuncFailX : String → Option String :=
  fun a => if a = "x" then some "unreachable" else none

/-- Scheduler timing environment of the cross-kind delay scenario: ping
every 5 seconds (instantaneous rounds), speed test every second, each
speed round lasting 10 seconds. -/
def envDelay : SchedEnv := ⟨5, 1, fun _ => 0, fun _ => 10⟩

/-- Scheduler timing environment with one-second intervals and
instantaneous rounds. -/
def envQuick : SchedEnv := ⟨1, 1, fun _ => 0, fun _ => 0⟩

/-- An on-demand `Ping` environment whose server-list fetch succeeds with
one server and whose per-server ping test always fails. -/
def envFetchOkPingFail : PingEnv :=
  ⟨Except.ok [("1", "SponsorOne")], fun _ => Except.error "timeout"⟩

/-- A pinger environment: pinger creation succeeds, the run naturally
lasts 5 seconds and reports no error. -/
def pingerEnvSlow : PingerEnv := ⟨fun _ => none, fun _ => 5, fun _ => none⟩

/-- A probe stub for the HTTP handler that always succeeds with an empty
result list. -/
def probeOkEmpty : List String → Except String (List PingResult) :=
  fun _ => Except.ok []

/-! ## Helper lemmas -/

lemma speedOne_serverID (env : SpeedEnv) (id : String) : (speedOne env id).serverID = id := by
  unfold speedOne
  cases env.fetchServer id with
  | error e => rfl
  | ok sponsor =>
    cases env.pingTest id with
    | error e => rfl
    | ok lat =>
      cases env.downloadTest id with
      | error e => rfl
      | ok dl =>
        cases env.uploadTest id with
        | error e => rfl
        | ok ul => rfl

lemma speed_length (env : SpeedEnv) : ∀ ids : List String, (Speed env ids).length = ids.length := by
  intro ids
  induction ids with
  | nil => rfl
  | cons a rest ih => simp [Speed, ih]

lemma speed_map_serverID (env : SpeedEnv) :
    ∀ ids : List String, (Speed env ids).map SpeedResult.serverID = ids := by
  intro ids
  induction ids with
  | nil => rfl
  | cons a rest ih => simp [Speed, ih, speedOne_serverID]

lemma speed_get? (env : SpeedEnv) :
    ∀ (ids : List String) (i : Nat) (h : i < ids.length),
      (Speed env ids).get? i = some (speedOne env (ids.get ⟨i, h⟩)) := by
  intro ids
  induction ids with
  | nil => intro i h; exact absurd h (by simp)
  | cons a rest ih =>
    intro i h
    cases i with
    | zero => rfl
    | succ j => exact ih j (Nat.lt_of_succ_lt_succ h)

lemma speedOne_agree (env env' : SpeedEnv) (id : String) (hag : agreeAt env env' id) :
    speedOne env id = speedOne env' id := by
  obtain ⟨h1, h2, h3, h4⟩ := hag
  unfold speedOne
  rw [h1, h2, h3, h4]

lemma schedPing_map_fst (f : String → Option String) :
    ∀ addrs : List String, (schedPing f addrs).map Prod.fst = addrs := by
  intro addrs
  induction addrs with
  | nil => rfl
  | cons a rest ih => simp [schedPing, ih]

lemma pingLoop_length (env : PingEnv) :
    ∀ servers : List (String × String), (pingLoop env servers).length = servers.length := by
  intro servers
  induction servers with
  | nil => rfl
  | cons s rest ih =>
    obtain ⟨id, sponsor⟩ := s
    simp [pingLoop, ih]

lemma scheduleLoop_chainedFrom (env : SchedEnv) (cancelAt : Nat) :
    ∀ (fuel : Nat) (s : LoopState), chainedFrom s.now (scheduleLoop env cancelAt fuel s) = true := by
  intro fuel
  induction fuel with
  | zero => intro s; rfl
  | succ n ih =>
    intro s
    simp only [scheduleLoop]
    split
    · rfl
    · split
      · simp only [chainedFrom, Bool.and_eq_true, decide_eq_true_eq]
        exact ⟨⟨Nat.le_max_right _ _, Nat.le_add_right _ _⟩,
          ih ⟨max s.pingNext s.now + env.pingDur s.pingCount,
            max s.pingNext s.now + env.pingDur s.pingCount + env.pingInterval,
            s.speedNext, s.pingCount + 1, s.speedCount⟩⟩
      · simp only [chainedFrom, Bool.and_eq_true, decide_eq_true_eq]
        exact ⟨⟨Nat.le_max_right _ _, Nat.le_add_right _ _⟩,
          ih ⟨max s.speedNext s.now + env.speedDur s.speedCount, s.pingNext,
            max s.speedNext s.now + env.speedDur s.speedCount + env.speedInterval,
            s.pingCount, s.speedCount + 1⟩⟩

lemma scheduleLoop_dueFrom_ping (env : SchedEnv) (cancelAt : Nat) :
    ∀ (fuel : Nat) (s : LoopState),
      dueFrom env.pingInterval s.pingNext
        ((scheduleLoop env cancelAt fuel s).filter RoundRec.isPing) = true := by
  intro fuel
  induction fuel with
  | zero => intro s; rfl
  | succ n ih =>
    intro s
    simp only [scheduleLoop]
    split
    · rfl
    · split
      · rw [List.filter_cons_of_pos]
        · simp only [dueFrom, Bool.and_eq_true, decide_eq_true_eq]
          exact ⟨⟨trivial, Nat.le_max_left _ _⟩,
            ih ⟨max s.pingNext s.now + env.pingDur s.pingCount,
              max s.pingNext s.now + env.pingDur s.pingCount + env.pingInterval,
              s.speedNext, s.pingCount + 1, s.speedCount⟩⟩
        · rfl
      · rw [List.filter_cons_of_neg]
        · exact ih ⟨max s.speedNext s.now + env.speedDur s.speedCount, s.pingNext,
            max s.speedNext s.now + env.speedDur s.speedCount + env.speedInterval,
            s.pingCount, s.speedCount + 1⟩
        · simp [RoundRec.isPing]

lemma scheduleLoop_dueFrom_speed (env : SchedEnv) (cancelAt : Nat) :
    ∀ (fuel : Nat) (s : LoopState),
      dueFrom env.speedInterval s.speedNext
        ((scheduleLoop env cancelAt fuel s).filter RoundRec.isSpeed) = true := by
  intro fuel
  induction fuel with
  | zero => intro s; rfl
  | succ n ih =>
    intro s
    simp only [scheduleLoop]
    split
    · rfl
    · split
      · rw [List.filter_cons_of_neg]
        · exact ih ⟨max s.pingNext s.now + env.pingDur s.pingCount,
            max s.pingNext s.now + env.pingDur s.pingCount + env.pingInterval,
            s.speedNext, s.pingCount + 1, s.speedCount⟩
        · simp [RoundRec.isSpeed]
      · rw [List.filter_cons_of_pos]
        · simp only [dueFrom, Bool.and_eq_true, decide_eq_true_eq]
          exact ⟨⟨trivial, Nat.le_max_left _ _⟩,
            ih ⟨max s.speedNext s.now + env.speedDur s.speedCount, s.pingNext,
              max s.speedNext s.now + env.speedDur s.speedCount + env.speedInterval,
              s.pingCount, s.speedCount + 1⟩⟩
        · rfl

lemma dueFrom_imp_gappedFrom (ival : Nat) :
    ∀ (l : List RoundRec) (b b' : Nat), b' ≤ b → dueFrom ival b l = true →
      gappedFrom ival b' l = true := by
  intro l
  induction l with
  | nil => intro b b' h hd; rfl
  | cons r rest ih =>
    intro b b' h hd
    simp only [dueFrom, Bool.and_eq_true, decide_eq_true_eq] at hd
    obtain ⟨⟨h1, h2⟩, h3⟩ := hd
    simp only [gappedFrom, Bool.and_eq_true, decide_eq_true_eq]
    exact ⟨by omega, ih _ _ (Nat.le_refl _) h3⟩

lemma scheduleLoop_linkedFrom (env : SchedEnv) (cancelAt : Nat) :
    ∀ (fuel : Nat) (s : LoopState), linkedFrom s.now (scheduleLoop env cancelAt fuel s) = true := by
  intro fuel
  induction fuel with
  | zero => intro s; rfl
  | succ n ih =>
    intro s
    simp only [scheduleLoop]
    split
    · rfl
    · split
      · simp only [linkedFrom, Bool.and_eq_true, decide_eq_true_eq]
        exact ⟨trivial, ih ⟨max s.pingNext s.now + env.pingDur s.pingCount,
          max s.pingNext s.now + env.pingDur s.pingCount + env.pingInterval,
          s.speedNext, s.pingCount + 1, s.speedCount⟩⟩
      · simp only [linkedFrom, Bool.and_eq_true, decide_eq_true_eq]
        exact ⟨trivial, ih ⟨max s.speedNext s.now + env.speedDur s.speedCount, s.pingNext,
          max s.speedNext s.now + env.speedDur s.speedCount + env.speedInterval,
          s.pingCount, s.speedCount + 1⟩⟩

lemma scheduleLoop_head_due (env : SchedEnv) (cancelAt : Nat) :
    ∀ (fuel : Nat) (s : LoopState) (r : RoundRec) (rest : List RoundRec),
      scheduleLoop env cancelAt fuel s = r :: rest → r.due = s.pingNext ∨ r.due = s.speedNext := by
  intro fuel
  cases fuel with
  | zero => intro s r rest h; exact absurd h (by simp [scheduleLoop])
  | succ n =>
    intro s r rest h
    simp only [scheduleLoop] at h
    split at h
    · exact absurd h (by simp)
    · split at h
      · cases h
        exact Or.inl rfl
      · cases h
        exact Or.inr rfl

/-! ## Claim theorems -/

/-- C1: For every list of server IDs supplied to the on-demand speed
round (`Speed`), the returned result list contains exactly one result per
supplied ID — success or failure, never zero or more than one — and the
results appear in the same order as the supplied IDs. -/
theorem speed_round_one_result_per_id (env : SpeedEnv) (ids : List String) :
    (Speed env ids).map SpeedResult.serverID = ids ∧ (Speed env ids).length = ids.length :=
  ⟨speed_map_serverID env ids, speed_length env ids⟩

/-- C2: A failure of one target's unit of work neither aborts the round
nor changes the outcome recorded for any other target.  For `Speed`, the
result at position `i` is exactly `speedOne` of the i-th id, and it is
unchanged when the environment is replaced by one that behaves the same
at that id but arbitrarily (e.g. failing) at every other id; for the
scheduler's ping round, every address is still processed in order,
whatever the per-address outcomes are. -/
theorem round_failure_isolation (env env' : SpeedEnv) (f : String → Option String)
    (ids addrs : List String) (i : Nat) (h : i < ids.length)
    (hag : agreeAt env env' (ids.get ⟨i, h⟩)) :
    (Speed env ids).get? i = some (speedOne env (ids.get ⟨i, h⟩))
      ∧ (Speed env' ids).get? i = (Speed env ids).get? i
      ∧ (schedPing f addrs).map Prod.fst = addrs := by
  refine ⟨speed_get? env ids i h, ?_, schedPing_map_fst f addrs⟩
  rw [speed_get? env ids i h, speed_get? env' ids i h, speedOne_agree env env' _ hag]

/-- C2 witness: in the round over ids ["A", "B"], fetching server "A"
fails in `envFailA` while `envAllOk` succeeds everywhere; the two
environments agree at "B", and target "B" gets the same (successful)
outcome in both rounds. -/
theorem round_failure_isolation_witness :
    (Speed envFailA ["A", "B"]).get? 1 = some (speedOne envFailA (["A", "B"].get ⟨1, by decide⟩))
      ∧ (Speed envAllOk ["A", "B"]).get? 1 = (Speed envFailA ["A", "B"]).get? 1
      ∧ (schedPing pingFuncFailX ["x", "y"]).map Prod.fst = ["x", "y"] :=
  round_failure_isolation envFailA envAllOk pingFuncFailX ["A", "B"] ["x", "y"] 1 (by decide)
    (by refine ⟨?_, rfl, rfl, rfl⟩; rfl)

/-- C4: An on-demand invocation whose `ids` path value is the empty
string is answered with HTTP 400 by both handlers, and the measurement
function (`Ping` / `Speed`) is never invoked (`calledWith = none`). -/
theorem empty_ids_rejected_before_probe (probe : List String → Except String (List PingResult))
    (idsPath : String) (h : idsPath = "") :
    pingHandlerFunc probe idsPath = ⟨400, none⟩ ∧ speedHandlerFunc idsPath = ⟨400, none⟩ := by
  subst h
  exact ⟨rfl, rfl⟩

/-- C4 witness: the empty path value concretely yields 400 with no probe
call. -/
theorem empty_ids_rejected_before_probe_witness :
    pingHandlerFunc probeOkEmpty "" = ⟨400, none⟩ ∧ speedHandlerFunc "" = ⟨400, none⟩ :=
  empty_ids_rejected_before_probe probeOkEmpty "" rfl

/-- C10: For every non-empty `ids` path value `getServerIDs` returns the
comma-split segments without validating them; the value "," passes the
emptiness check and yields ["", ""], which the handler passes on to
probing; only the fully empty path value produces the validation
error. -/
theorem get_server_ids_no_validation (s : String) (h : s ≠ "")
    (probe : List String → Except String (List PingResult)) :
    getServerIDs s = Except.ok (splitComma s)
      ∧ getServerIDs "," = Except.ok ["", ""]
      ∧ getServerIDs "" = Except.error "ping failed. missing server ids value"
      ∧ (pingHandlerFunc probe ",").calledWith = some ["", ""] := by
  refine ⟨?_, rfl, rfl, ?_⟩
  · unfold getServerIDs
    rw [if_neg h]
  · cases hp : probe ["", ""] with
    | error e => simp [pingHandlerFunc, show getServerIDs "," = Except.ok ["", ""] from rfl, hp]
    | ok r => simp [pingHandlerFunc, show getServerIDs "," = Except.ok ["", ""] from rfl, hp]

/-- C10 witness: concretely, "1,2" is split into ["1", "2"] with no
validation, "," yields ["", ""] and is passed to the probe. -/
theorem get_server_ids_no_validation_witness :
    getServerIDs "1,2" = Except.ok (splitComma "1,2")
      ∧ getServerIDs "," = Except.ok ["", ""]
      ∧ getServerIDs "" = Except.error "ping failed. missing server ids value"
      ∧ (pingHandlerFunc probeOkEmpty ",").calledWith = some ["", ""] :=
  get_server_ids_no_validation "1,2" (by decide) probeOkEmpty

/-- C8: The on-demand operations surface an error only for a
total-infrastructure failure occurring before any per-target unit starts:
`Ping` returns an error exactly when the server-list fetch fails, and
when the fetch succeeds it returns the full round, one entry per server,
with per-server failures recorded inside the entries; `Speed` has no
error return at all and always yields one entry per supplied id. -/
theorem on_demand_error_only_infra (env : PingEnv) (senv : SpeedEnv) (ids : List String) :
    (∀ e, Ping env = Except.error e ↔ env.fetchServerList = Except.error e)
      ∧ (∀ servers, env.fetchServerList = Except.ok servers →
          Ping env = Except.ok (pingLoop env servers)
            ∧ (pingLoop env servers).length = servers.length)
      ∧ (Speed senv ids).length = ids.length := by
  refine ⟨?_, ?_, speed_length senv ids⟩
  · intro e
    unfold Ping
    cases hf : env.fetchServerList with
    | error e0 => simp
    | ok servers => simp
  · intro servers hf
    unfold Ping
    rw [hf]
    exact ⟨rfl, pingLoop_length env servers⟩

/-- C8 witness: with a succeeding fetch of one server and a ping test
that always fails, `Ping` still returns the full round (no error), with
one entry for the one server. -/
theorem on_demand_error_only_infra_witness :
    Ping envFetchOkPingFail = Except.ok (pingLoop envFetchOkPingFail [("1", "SponsorOne")])
      ∧ (pingLoop envFetchOkPingFail [("1", "SponsorOne")]).length
          = [("1", "SponsorOne")].length :=
  (on_demand_error_only_infra envFetchOkPingFail envAllOk []).2.1 [("1", "SponsorOne")] rfl

/-- C5 counterexample: `NewScheduler` accepts a configuration whose
address list and server-ID list are both empty — construction succeeds as
long as the two probe functions are non-nil, so the claim that an empty
target set makes `NewScheduler` return an error is false. -/
theorem new_scheduler_accepts_empty_targets :
    isOkE (NewScheduler ⟨[], 60⟩ ⟨[], 3600⟩ (some fun _ => none) (some fun _ _ => none)) = true :=
  rfl

/-- C5 amended: `NewScheduler` fails fast exactly when one of the two
probe functions is nil; the target lists (and intervals) are not
validated, so empty address or server-ID lists are accepted. -/
theorem new_scheduler_checks_only_nil_funcs (pingCfg : PingConfig) (speedCfg : SpeedConfig)
    (pingFunc : Option PingFuncT) (speedTestFunc : Option SpeedTestFuncT) :
    isOkE (NewScheduler pingCfg speedCfg pingFunc speedTestFunc) = true
      ↔ (pingFunc.isSome = true ∧ speedTestFunc.isSome = true) := by
  cases pingFunc with
  | none => simp [NewScheduler, isOkE]
  | some pf =>
    cases speedTestFunc with
    | none => simp [NewScheduler, isOkE]
    | some sf => simp [NewScheduler, isOkE]

/-- C7 counterexample: the scheduler's latency round ignores the
cancellation signal.  With one address whose probe naturally lasts 5
seconds, the round lasts the full 5 seconds whether the context is
cancelled at time 0 or never: the in-flight probe does not observe
cancellation and runs to completion, so the claim is false. -/
theorem ping_probe_ignores_cancellation :
    schedPingElapsed (fun a => pingProbe pingerEnvSlow a) ["1.1.1.1"] (some 0) = 5
      ∧ schedPingElapsed (fun a => pingProbe pingerEnvSlow a) ["1.1.1.1"] none = 5 :=
  ⟨rfl, rfl⟩

/-- C7 amended: each latency probe is bounded by the fixed 20-second
pinger timeout, but the probe function receives no cancellation signal
(`PingFunc` takes only the address), so the elapsed time of the
scheduler's ping round is identical for every cancellation time. -/
theorem ping_probe_bounded_timeout_no_cancel (f : String → Nat × Option String)
    (addrs : List String) (c c' : Option Nat) (env : PingerEnv) (a : String) :
    schedPingElapsed f addrs c = schedPingElapsed f addrs c'
      ∧ (pingProbe env a).fst ≤ 20 := by
  constructor
  · induction addrs with
    | nil => rfl
    | cons x rest ih => simp [schedPingElapsed, ih]
  · unfold pingProbe
    cases env.newPingerErr a with
    | some e => exact Nat.zero_le _
    | none =>
      cases env.runErr a with
      | some e => exact Nat.min_le_right _ _
      | none => exact Nat.min_le_right _ _

/-- C3: In the scheduler's timed semantics, rounds are sequential (a new
round never starts before the previous one stops, in particular never
while a round of the same kind is running), and for each kind every
ticker-driven tick is due exactly one interval after the ticker was last
reset — i.e. one interval after the previous round of that kind completed
(for the first tick, after the tickers were created at the end of the
initial rounds) — and the consecutive rounds of one kind are separated by
at least the kind's interval. -/
theorem scheduler_no_overlap_reset_after_round (env : SchedEnv) (cancelAt fuel : Nat) :
    chainedAll (Schedule env cancelAt fuel) = true
      ∧ dueFrom env.pingInterval (env.pingDur 0 + env.speedDur 0 + env.pingInterval)
          (((Schedule env cancelAt fuel).drop 2).filter RoundRec.isPing) = true
      ∧ dueFrom env.speedInterval (env.pingDur 0 + env.speedDur 0 + env.speedInterval)
          (((Schedule env cancelAt fuel).drop 2).filter RoundRec.isSpeed) = true
      ∧ gappedAll env.pingInterval ((Schedule env cancelAt fuel).filter RoundRec.isPing) = true
      ∧ gappedAll env.speedInterval ((Schedule env cancelAt fuel).filter RoundRec.isSpeed) = true := by
  refine ⟨?_, ?_, ?_, ?_, ?_⟩
  · unfold Schedule
    simp only [chainedAll, chainedFrom, Bool.and_eq_true, decide_eq_true_eq]
    exact ⟨Nat.zero_le _, ⟨Nat.le_refl _, Nat.le_add_right _ _⟩,
      scheduleLoop_chainedFrom env cancelAt fuel (initState env)⟩
  · exact scheduleLoop_dueFrom_ping env cancelAt fuel (initState env)
  · exact scheduleLoop_dueFrom_speed env cancelAt fuel (initState env)
  · show gappedFrom env.pingInterval (env.pingDur 0 + env.pingInterval)
      ((scheduleLoop env cancelAt fuel (initState env)).filter RoundRec.isPing) = true
    exact dueFrom_imp_gappedFrom env.pingInterval _ _ _ (by simp only [initState]; omega)
      (scheduleLoop_dueFrom_ping env cancelAt fuel (initState env))
  · show gappedFrom env.speedInterval (env.pingDur 0 + env.speedDur 0 + env.speedInterval)
      ((scheduleLoop env cancelAt fuel (initState env)).filter RoundRec.isSpeed) = true
    exact dueFrom_imp_gappedFrom env.speedInterval _ _ _ (by simp [initState])
      (scheduleLoop_dueFrom_speed env cancelAt fuel (initState env))

/-- C6 counterexample: a round of one kind in progress does delay the
start of a due round of the other kind.  In `envDelay` (ping every 5 s,
speed every 1 s, speed rounds lasting 10 s) the ping tick fires at t = 15
while the speed round started at t = 11 is still running until t = 21;
the ping round only starts at t = 21 — six seconds late — so the claim
that the two kinds never delay each other is false. -/
theorem cross_kind_delay_counterexample :
    Schedule envDelay 30 10 =
      [⟨Kind.ping, 0, 0, 0⟩, ⟨Kind.speed, 0, 0, 10⟩, ⟨Kind.speed, 11, 11, 21⟩,
       ⟨Kind.ping, 15, 21, 21⟩, ⟨Kind.speed, 22, 22, 32⟩]
      ∧ ∃ r ∈ Schedule envDelay 30 10, r.start ≠ r.due := by
  refine ⟨by decide, ⟨Kind.ping, 15, 21, 21⟩, by decide, by decide⟩

/-- C6 amended: the two kinds share the scheduler's single sequential
loop, so their rounds never overlap; a round that becomes due while a
round (of either kind) is still running starts exactly when that round
completes — every round starts at `max due (previous round's stop)`. -/
theorem scheduler_rounds_sequential_cross_kind (env : SchedEnv) (cancelAt fuel : Nat) :
    linkedAll (Schedule env cancelAt fuel) = true := by
  unfold Schedule
  simp only [linkedAll, linkedFrom, Bool.and_eq_true, decide_eq_true_eq]
  exact ⟨by omega, scheduleLoop_linkedFrom env cancelAt fuel (initState env)⟩

/-- C9: On startup, before entering the timer loop, the scheduler runs
one immediate round of each kind — the first two recorded rounds are a
ping round starting at time 0 and a speed round starting right after it,
independent of the configured intervals — and any later (ticker-driven)
round is due no earlier than one minimal interval after the initial
rounds complete. -/
theorem initial_rounds_before_timer_loop (env : SchedEnv) (cancelAt fuel : Nat) :
    (Schedule env cancelAt fuel).take 2 =
      [⟨Kind.ping, 0, 0, env.pingDur 0⟩,
       ⟨Kind.speed, env.pingDur 0, env.pingDur 0, env.pingDur 0 + env.speedDur 0⟩]
      ∧ ∀ r : RoundRec, (Schedule env cancelAt fuel).get? 2 = some r →
          env.pingDur 0 + env.speedDur 0 + min env.pingInterval env.speedInterval ≤ r.due := by
  constructor
  · rfl
  · intro r hr
    have h2 : (Schedule env cancelAt fuel).get? 2
        = (scheduleLoop env cancelAt fuel (initState env)).get? 0 := rfl
    rw [h2] at hr
    cases hl : scheduleLoop env cancelAt fuel (initState env) with
    | nil => rw [hl] at hr; exact absurd hr (by simp)
    | cons x rest =>
      rw [hl] at hr
      have hx : x = r := by simpa using hr
      subst hx
      rcases scheduleLoop_head_due env cancelAt fuel (initState env) x rest hl with h | h <;>
        rw [h] <;> simp only [initState] <;> omega

/-- C9 witness: with one-second intervals and instantaneous rounds, the
two initial rounds run at time 0 and the first ticker-driven round (a
ping round due at t = 1) is due no earlier than the minimal interval. -/
theorem initial_rounds_before_timer_loop_witness :
    (Schedule envQuick 100 3).take 2 =
      [⟨Kind.ping, 0, 0, 0⟩, ⟨Kind.speed, 0, 0, 0⟩]
      ∧ 0 + 0 + min 1 1 ≤ (⟨Kind.ping, 1, 1, 1⟩ : RoundRec).due :=
  ⟨(initial_rounds_before_timer_loop envQuick 100 3).1,
   (initial_rounds_before_timer_loop envQuick 100 3).2 ⟨Kind.ping, 1, 1, 1⟩ (by decide)⟩
